import Mathlib

/-!
Verification of the mshadow tensor core (`mshadow/tensor.h`).

The shape/tensor data model is embedded shallowly:

* `index_t` and `size_t` are modelled by `Nat`; pointer arithmetic is
  modelled by `Nat` offsets into one flat address space; `real_t` values
  are modelled by `Rat`.
* `Shape<D>` stores `D` extents `shape_[0..D-1]` (index 0 = lowest
  dimension, index `D-1` = outermost) plus a stride field `stride_`.
  It is embedded as a list of extents (element `i` of the list is
  `shape_[i]`) together with `stride_`; the rank `D` is the length of the
  list and appears as a hypothesis in theorems that fix it.
* `Tensor<Device,D>` is a non-owning view `{dptr, shape}`; the device tag
  has no runtime content and is dropped.
-/

/-- Machine scalars (`real_t`) are modelled by the rationals. -/
abbrev RealT := Rat

/-- Device memory: a total map from addresses to scalar values. -/
abbrev Mem := Nat → RealT

/-- `Shape` from `mshadow/tensor.h`: the extents array `shape_`
(`shape_[i]` = element `i` of the list, index 0 = lowest dimension,
index `length - 1` = outermost) and the stride field `stride_` used for
padded allocation of dimension 0. -/
structure Shape where
  shape_ : List Nat
  stride_ : Nat
deriving DecidableEq

/-- Rank of a shape (the template parameter `dimension`). -/
def Shape.rank (s : Shape) : Nat := s.shape_.length

/-- `Shape::Size` (tensor.h lines 84-91): `memsz = shape_[0]`, then
multiply by `shape_[i]` for `i = 1 .. D-1`.  Meaningful for rank ≥ 1. -/
def Shape.Size (s : Shape) : Nat :=
  s.shape_.headI * (s.shape_.drop 1).prod

/-- `Shape::MSize` (tensor.h lines 93-100): `memsz = stride_`, then
multiply by `shape_[i]` for `i = 1 .. D-1`. -/
def Shape.MSize (s : Shape) : Nat :=
  s.stride_ * (s.shape_.drop 1).prod

/-- `Shape::FlatTo2D` (tensor.h lines 70-82): keep `stride_` and
`shape_[0]`, collapse `shape_[1..D-1]` into the new `shape_[1]`. -/
def Shape.FlatTo2D (s : Shape) : Shape :=
  { shape_ := [s.shape_.headI, (s.shape_.drop 1).prod], stride_ := s.stride_ }

/-- `Shape::SubShape` (tensor.h lines 105-114): keep `stride_` and copy
`shape_[0..D-2]`, dropping the outermost dimension `D-1`. -/
def Shape.SubShape (s : Shape) : Shape :=
  { shape_ := s.shape_.dropLast, stride_ := s.stride_ }

/-- `Shape::operator==` (tensor.h lines 59-65): loop `i = 0 .. D-1`
comparing `shape_[i]`; the stride field is never read. -/
def Shape.eqShape (s t : Shape) : Bool :=
  (List.range s.shape_.length).all (fun i => s.shape_.getD i 0 == t.shape_.getD i 0)

/-- Outermost extent `shape_[D-1]` of a shape of rank ≥ 1. -/
def Shape.outerExtent (s : Shape) : Nat := s.shape_.getLastD 0

/-- Iterate `SubShape` `n` times. -/
def Shape.iterSubShape : Nat → Shape → Shape
  | 0, s => s
  | n + 1, s => Shape.iterSubShape n s.SubShape

/-- `Tensor<Device,dimension>` (tensor.h lines 185-246): a non-owning
view, a data offset `dptr` into `Mem` plus a `Shape`. -/
structure Tensor where
  dptr : Nat
  shape : Shape
deriving DecidableEq

/-- Generic `Tensor::operator[]` for rank > 1 (tensor.h lines 218-222):
`s = shape.SubShape(); Tensor(dptr + s.MSize() * idx, s)`. -/
def Tensor.sub (t : Tensor) (idx : Nat) : Tensor :=
  { dptr := t.dptr + t.shape.SubShape.MSize * idx, shape := t.shape.SubShape }

/-- Rank-1 `Tensor<Device,1>::operator[]` (tensor.h lines 270-271) yields
the scalar `dptr[idx]`; we model the address of that scalar reference. -/
def Tensor.ref (t : Tensor) (idx : Nat) : Nat := t.dptr + idx

/-- Generic `Tensor::Slice` for rank > 1 (tensor.h lines 227-232):
`s = shape; s[dimension-1] = end - begin;
 Tensor(dptr + s.SubShape().MSize() * begin, s)`. -/
def Tensor.Slice (t : Tensor) (b e : Nat) : Tensor :=
  let s : Shape :=
    { shape_ := t.shape.shape_.set (t.shape.shape_.length - 1) (e - b),
      stride_ := t.shape.stride_ }
  { dptr := t.dptr + s.SubShape.MSize * b, shape := s }

/-- Rank-1 `Tensor<Device,1>::Slice` (tensor.h lines 264-269):
`s[0] = s.stride_ = end - begin; Tensor(dptr + begin, s)`. -/
def Tensor.Slice1 (t : Tensor) (b e : Nat) : Tensor :=
  { dptr := t.dptr + b, shape := { shape_ := [e - b], stride_ := e - b } }

/-- Modelled from the spec: the expression-node representation
(`tensor_expr.h` is not under src/; `tensor.h` only forward-declares the
engine).  A node is "a typed, composable representation of a value at each
coordinate": a leaf array handle (taken here already flattened to the
engine's 2-D coordinate space), a scalar broadcast, or a binary
elementwise operator combining two subexpressions. -/
inductive Exp where
  | leaf (t : Tensor)
  | scalarE (v : RealT)
  | binary (f : RealT → RealT → RealT) (l r : Exp)

/-- Modelled from the spec: the elementwise addition node built by
`operator+` (the concrete arithmetic operators are external
collaborators; only their binary-node structure matters here). -/
def addExp (l r : Exp) : Exp := Exp.binary (fun u v => u + v) l r

/-- Modelled from the spec: the elementwise multiplication node built by
`operator*`. -/
def mulExp (l r : Exp) : Exp := Exp.binary (fun u v => u * v) l r

/-- Modelled from the spec: `expr::Plan` (forward-declared at tensor.h
lines 344-345), "the rank-erased, coordinate-indexed evaluator mirroring
an expression tree"; a leaf Plan holds the pointer and stride it needs "to
evaluate without consulting the original node again". -/
inductive Plan where
  | tensorP (dptr stride : Nat)
  | scalarP (v : RealT)
  | binaryP (f : RealT → RealT → RealT) (l r : Plan)

/-- Modelled from the spec: recursive Plan construction — "given an
expression-node tree, recursively construct an isomorphic Plan tree, one
Plan per node, each holding references to its children's Plans". -/
def MakePlan : Exp → Plan
  | .leaf t => .tensorP t.dptr t.shape.stride_
  | .scalarE v => .scalarP v
  | .binary f l r => .binaryP f (MakePlan l) (MakePlan r)

/-- Modelled from the spec: Plan evaluation, the one operation "evaluate
at (row, column), returning a scalar"; a binary-operator Plan "evaluates
its two child Plans at the same coordinate and combines them", a leaf Plan
reads the memory cell `dptr + row × stride + column`. -/
def Plan.Eval (m : Mem) : Plan → Nat → Nat → RealT
  | .tensorP d st, y, x => m (d + y * st + x)
  | .scalarP v, _, _ => v
  | .binaryP f l r, y, x => f (Plan.Eval m l y x) (Plan.Eval m r y x)

/-- The addresses a Plan reads when evaluated at coordinate (y, x). -/
def planReads : Plan → Nat → Nat → List Nat
  | .tensorP d st, y, x => [d + y * st + x]
  | .scalarP _, _, _ => []
  | .binaryP _ l r, y, x => planReads l y x ++ planReads r y x

/-- Overwrite one memory cell: the `sv::saveto` store policy, "the only
point in the whole pipeline where memory is mutated". -/
def store (m : Mem) (a : Nat) (v : RealT) : Mem :=
  fun b => if b = a then v else m b

/-- Modelled from the spec: one row of the `MapPlan` evaluation driver —
for `x = 0 .. X-1` evaluate the Plan at (y, x) against the current memory
and store the result at `dst.dptr + y × stride + x`. -/
def MapPlanRow (dst : Tensor) (p : Plan) (y : Nat) : Nat → Mem → Mem
  | 0, m => m
  | x + 1, m =>
      store (MapPlanRow dst p y x m)
        (dst.dptr + y * dst.shape.stride_ + x)
        (Plan.Eval (MapPlanRow dst p y x m) p y x)

/-- Modelled from the spec: the `MapPlan` evaluation driver (declared at
tensor.h lines 356-359) — the sequential host loop over rows
`y = 0 .. Y-1`, each row sweeping columns `x = 0 .. w-1`. -/
def MapPlanAll (dst : Tensor) (p : Plan) (w : Nat) : Nat → Mem → Mem
  | 0, m => m
  | y + 1, m => MapPlanRow dst p y w (MapPlanAll dst p w y m)

/-- Modelled from the spec: `MapExp` (declared at tensor.h lines 371-372)
— flatten the destination to the 2-D (height × width) coordinate space via
`FlatTo2D`, build the Plan of the expression, and run the driver over
every coordinate. -/
def MapExp (dst : Tensor) (e : Exp) (m : Mem) : Mem :=
  MapPlanAll (Tensor.mk dst.dptr dst.shape.FlatTo2D) (MakePlan e)
    (dst.shape.FlatTo2D.shape_.getD 0 0) (dst.shape.FlatTo2D.shape_.getD 1 0) m

/-- Coordinate-disjointness of two 2-D views over common logical extents
w × h: no coordinate of the first maps to the same address as any
coordinate of the second. -/
abbrev TDisj (t1 t2 : Tensor) (w h : Nat) : Prop :=
  ∀ y1, y1 < h → ∀ x1, x1 < w → ∀ y2, y2 < h → ∀ x2, x2 < w →
    t1.dptr + y1 * t1.shape.stride_ + x1 ≠ t2.dptr + y2 * t2.shape.stride_ + x2

/-- A concrete memory used for evaluation at concrete inputs: cell `a`
initially holds the value `a`. -/
def mWit : Mem := fun a => (a : RealT)

/-- A concrete 1×1 destination view at address 0. -/
def dstW : Tensor := Tensor.mk 0 (Shape.mk [1, 1] 1)

/-- A concrete 1×1 temporary view at address 1. -/
def tmpW : Tensor := Tensor.mk 1 (Shape.mk [1, 1] 1)

/-- A concrete 1×1 operand view at address 2. -/
def aW : Tensor := Tensor.mk 2 (Shape.mk [1, 1] 1)

/-- A concrete 1×1 operand view at address 3. -/
def bW : Tensor := Tensor.mk 3 (Shape.mk [1, 1] 1)

/-- A concrete 1×1 operand view at address 4. -/
def cW : Tensor := Tensor.mk 4 (Shape.mk [1, 1] 1)

-- helper lemmas about the list representation

theorem headI_mul_tail_prod (l : List Nat) (h : l ≠ []) :
    l.headI * (l.drop 1).prod = l.prod := by
  cases l with
  | nil => exact absurd rfl h
  | cons a t => simp [List.prod_cons]

theorem set_last_eq (l : List Nat) (v : Nat) (h : l ≠ []) :
    l.set (l.length - 1) v = l.dropLast ++ [v] := by
  induction l with
  | nil => exact absurd rfl h
  | cons a t ih =>
      cases t with
      | nil => rfl
      | cons b u =>
          have h1 : (a :: b :: u).length - 1 = ((b :: u).length - 1) + 1 := by
            simp
          rw [h1, List.set_cons_succ, ih (List.cons_ne_nil b u), List.dropLast_cons₂]
          rfl

theorem set_last_dropLast (l : List Nat) (v : Nat) (h : l ≠ []) :
    (l.set (l.length - 1) v).dropLast = l.dropLast := by
  rw [set_last_eq l v h, List.dropLast_concat]

theorem set_last_getLastD (l : List Nat) (v : Nat) (h : l ≠ []) :
    (l.set (l.length - 1) v).getLastD 0 = v := by
  rw [set_last_eq l v h, List.getLastD_concat]

theorem list_eq_of_getD (l1 : List Nat) :
    ∀ l2 : List Nat, l1.length = l2.length →
      (∀ i, i < l1.length → l1.getD i 0 = l2.getD i 0) → l1 = l2 := by
  induction l1 with
  | nil =>
      intro l2 hlen _
      exact (List.eq_nil_of_length_eq_zero hlen.symm).symm
  | cons a t ih =>
      intro l2 hlen h
      cases l2 with
      | nil => simp at hlen
      | cons b u =>
          have hhead : a = b := h 0 (by simp)
          have htail : t = u := by
            refine ih u (by simpa using hlen) ?_
            intro i hi
            have := h (i + 1) (by simpa using Nat.succ_lt_succ hi)
            simpa using this
          rw [hhead, htail]

theorem headI_dropLast (l : List Nat) (h : 2 ≤ l.length) :
    l.dropLast.headI = l.headI := by
  cases l with
  | nil => simp at h
  | cons a t =>
      cases t with
      | nil => simp at h
      | cons b u => rw [List.dropLast_cons₂]; rfl

theorem subShape_stride_eq (s : Shape) : s.SubShape.stride_ = s.stride_ := rfl

theorem iterSubShape_stride (k : Nat) :
    ∀ s : Shape, (Shape.iterSubShape k s).stride_ = s.stride_ := by
  induction k with
  | zero => intro s; rfl
  | succ k ih =>
      intro s
      show (Shape.iterSubShape k s.SubShape).stride_ = s.stride_
      rw [ih s.SubShape, subShape_stride_eq]

theorem iterSubShape_shape (n : Nat) :
    ∀ s : Shape, s.shape_.length = n + 1 →
      (Shape.iterSubShape n s).shape_ = [s.shape_.headI] := by
  induction n with
  | zero =>
      intro s hs
      show s.shape_ = [s.shape_.headI]
      cases hl : s.shape_ with
      | nil => rw [hl] at hs; simp at hs
      | cons a t =>
          rw [hl] at hs
          have ht : t = [] := by simpa using hs
          subst ht
          rfl
  | succ n ih =>
      intro s hs
      show (Shape.iterSubShape n s.SubShape).shape_ = [s.shape_.headI]
      have hlen : s.SubShape.shape_.length = n + 1 := by
        show s.shape_.dropLast.length = n + 1
        rw [List.length_dropLast, hs]
        rfl
      rw [ih s.SubShape hlen]
      have : s.SubShape.shape_.headI = s.shape_.headI :=
        headI_dropLast s.shape_ (by rw [hs]; omega)
      rw [this]

-- helper lemmas about Slice on the generic (rank > 1) tensor

theorem slice_shape_stride (t : Tensor) (b e : Nat) :
    (t.Slice b e).shape.stride_ = t.shape.stride_ := rfl

theorem slice_outerExtent (t : Tensor) (b e : Nat) (h : t.shape.shape_ ≠ []) :
    (t.Slice b e).shape.outerExtent = e - b := by
  show (t.shape.shape_.set (t.shape.shape_.length - 1) (e - b)).getLastD 0 = e - b
  exact set_last_getLastD _ _ h

theorem slice_subShape (t : Tensor) (b e : Nat) (h : t.shape.shape_ ≠ []) :
    (t.Slice b e).shape.SubShape = t.shape.SubShape := by
  show Shape.mk ((t.shape.shape_.set (t.shape.shape_.length - 1) (e - b)).dropLast)
        t.shape.stride_
      = Shape.mk t.shape.shape_.dropLast t.shape.stride_
  rw [set_last_dropLast _ _ h]

theorem slice_dropLast (t : Tensor) (b e : Nat) (h : t.shape.shape_ ≠ []) :
    (t.Slice b e).shape.shape_.dropLast = t.shape.shape_.dropLast := by
  show (t.shape.shape_.set (t.shape.shape_.length - 1) (e - b)).dropLast
      = t.shape.shape_.dropLast
  exact set_last_dropLast _ _ h

theorem slice_dptr (t : Tensor) (b e : Nat) (h : t.shape.shape_ ≠ []) :
    (t.Slice b e).dptr = t.dptr + t.shape.SubShape.MSize * b := by
  show t.dptr
        + Shape.MSize
            ⟨(t.shape.shape_.set (t.shape.shape_.length - 1) (e - b)).dropLast,
              t.shape.stride_⟩ * b
      = t.dptr + Shape.MSize ⟨t.shape.shape_.dropLast, t.shape.stride_⟩ * b
  rw [set_last_dropLast _ _ h]

theorem rank_pos_ne_nil (t : Tensor) (h : 1 ≤ t.shape.rank) : t.shape.shape_ ≠ [] := by
  intro hc
  rw [Shape.rank, hc] at h
  simp at h

-- theorems for the claims

/-- C5: for every rank D ≥ 1 and every `Shape`, `Size()` equals the
product of all D extents and is independent of the stride/pad field. -/
theorem shape_size_eq_prod_extents (s : Shape) (h : 1 ≤ s.rank) :
    s.Size = s.shape_.prod ∧
    ∀ st : Nat, Shape.Size { shape_ := s.shape_, stride_ := st } = s.Size := by
  refine ⟨?_, fun st => rfl⟩
  exact headI_mul_tail_prod s.shape_ (List.length_pos.mp h)

/-- Witness for C5 at the concrete shape `{shape_ = [3, 4], stride_ = 7}`. -/
theorem shape_size_eq_prod_extents_witness :
    1 ≤ Shape.rank { shape_ := [3, 4], stride_ := 7 } ∧
    (Shape.Size { shape_ := [3, 4], stride_ := 7 } = List.prod [3, 4] ∧
     ∀ st : Nat, Shape.Size { shape_ := [3, 4], stride_ := st }
        = Shape.Size { shape_ := [3, 4], stride_ := 7 }) :=
  ⟨by decide, shape_size_eq_prod_extents { shape_ := [3, 4], stride_ := 7 } (by decide)⟩

/-- C6: for every shape of rank ≥ 1 satisfying the invariant
`stride_ ≥ shape_[0]`, `MSize()` equals `stride_ × product(extents[1..D-1])`
and `MSize() ≥ Size()`. -/
theorem shape_msize_eq_and_ge_size (s : Shape) (h : 1 ≤ s.rank)
    (hpad : s.shape_.headI ≤ s.stride_) :
    s.MSize = s.stride_ * (s.shape_.drop 1).prod ∧ s.Size ≤ s.MSize := by
  exact ⟨rfl, Nat.mul_le_mul_right _ hpad⟩

/-- Witness for C6 at the concrete shape `{shape_ = [3, 4], stride_ = 5}`. -/
theorem shape_msize_eq_and_ge_size_witness :
    (1 ≤ Shape.rank { shape_ := [3, 4], stride_ := 5 } ∧
     List.headI [3, 4] ≤ 5) ∧
    (Shape.MSize { shape_ := [3, 4], stride_ := 5 } = 5 * (List.drop 1 [3, 4]).prod ∧
     Shape.Size { shape_ := [3, 4], stride_ := 5 }
       ≤ Shape.MSize { shape_ := [3, 4], stride_ := 5 }) :=
  ⟨by decide,
   shape_msize_eq_and_ge_size { shape_ := [3, 4], stride_ := 5 } (by decide) (by decide)⟩

/-- C7: `FlatTo2D` keeps extent 0, collapses extents `1..D-1` into the new
extent 1, preserves the stride, and preserves the logical size; for rank 1
the result is a single row (extent 1 is 1, extent 0 is the logical size). -/
theorem shape_flatTo2D_spec (s : Shape) (h : 1 ≤ s.rank) :
    s.FlatTo2D.shape_.getD 0 0 = s.shape_.getD 0 0 ∧
    s.FlatTo2D.shape_.getD 1 0 = (s.shape_.drop 1).prod ∧
    s.FlatTo2D.stride_ = s.stride_ ∧
    s.FlatTo2D.Size = s.Size ∧
    (s.rank = 1 → s.FlatTo2D.shape_.getD 1 0 = 1 ∧ s.FlatTo2D.shape_.getD 0 0 = s.Size) := by
  obtain ⟨l, st⟩ := s
  simp only [Shape.rank] at h
  cases l with
  | nil => simp at h
  | cons a t =>
      refine ⟨by simp [Shape.FlatTo2D], by simp [Shape.FlatTo2D], rfl, ?_, ?_⟩
      · simp [Shape.FlatTo2D, Shape.Size]
      · intro h1
        simp only [Shape.rank, List.length_cons] at h1
        have ht : t = [] := List.eq_nil_of_length_eq_zero (by omega)
        subst ht
        simp [Shape.FlatTo2D, Shape.Size]

/-- Witness for C7 at the concrete rank-3 shape `{shape_ = [3, 4, 5], stride_ = 6}`. -/
theorem shape_flatTo2D_spec_witness :
    1 ≤ Shape.rank { shape_ := [3, 4, 5], stride_ := 6 } ∧
    ((Shape.FlatTo2D { shape_ := [3, 4, 5], stride_ := 6 }).shape_.getD 0 0
        = List.getD [3, 4, 5] 0 0 ∧
     (Shape.FlatTo2D { shape_ := [3, 4, 5], stride_ := 6 }).shape_.getD 1 0
        = (List.drop 1 [3, 4, 5]).prod ∧
     (Shape.FlatTo2D { shape_ := [3, 4, 5], stride_ := 6 }).stride_ = 6 ∧
     (Shape.FlatTo2D { shape_ := [3, 4, 5], stride_ := 6 }).Size
        = Shape.Size { shape_ := [3, 4, 5], stride_ := 6 } ∧
     (Shape.rank { shape_ := [3, 4, 5], stride_ := 6 } = 1 →
       (Shape.FlatTo2D { shape_ := [3, 4, 5], stride_ := 6 }).shape_.getD 1 0 = 1 ∧
       (Shape.FlatTo2D { shape_ := [3, 4, 5], stride_ := 6 }).shape_.getD 0 0
          = Shape.Size { shape_ := [3, 4, 5], stride_ := 6 })) :=
  ⟨by decide, shape_flatTo2D_spec { shape_ := [3, 4, 5], stride_ := 6 } (by decide)⟩

/-- C8: for two shapes of the same rank, `operator==` is true exactly when
all extents are pairwise equal, and its value never depends on either
stride field. -/
theorem shape_eq_iff_extents (s t : Shape) (hlen : s.rank = t.rank) :
    (s.eqShape t = true ↔ s.shape_ = t.shape_) ∧
    ∀ st1 st2 : Nat,
      Shape.eqShape { shape_ := s.shape_, stride_ := st1 }
          { shape_ := t.shape_, stride_ := st2 } = s.eqShape t := by
  refine ⟨⟨?_, ?_⟩, fun st1 st2 => rfl⟩
  · intro hall
    refine list_eq_of_getD s.shape_ t.shape_ hlen ?_
    intro i hi
    have hmem : i ∈ List.range s.shape_.length := List.mem_range.mpr hi
    have := List.all_eq_true.mp hall i hmem
    simpa using this
  · intro hext
    apply List.all_eq_true.mpr
    intro i _
    rw [hext]
    simp

/-- Witness for C8 at two concrete equal-rank shapes with different strides. -/
theorem shape_eq_iff_extents_witness :
    Shape.rank { shape_ := [3, 4], stride_ := 5 }
        = Shape.rank { shape_ := [3, 4], stride_ := 9 } ∧
    ((Shape.eqShape { shape_ := [3, 4], stride_ := 5 } { shape_ := [3, 4], stride_ := 9 }
        = true ↔ ([3, 4] : List Nat) = [3, 4]) ∧
     ∀ st1 st2 : Nat,
       Shape.eqShape { shape_ := [3, 4], stride_ := st1 } { shape_ := [3, 4], stride_ := st2 }
         = Shape.eqShape { shape_ := [3, 4], stride_ := 5 } { shape_ := [3, 4], stride_ := 9 }) :=
  ⟨by decide,
   shape_eq_iff_extents { shape_ := [3, 4], stride_ := 5 } { shape_ := [3, 4], stride_ := 9 }
     (by decide)⟩

/-- C9: applying `SubShape` D−1 times to a rank-D shape (D ≥ 1) yields a
rank-1 shape whose sole extent is the original extent 0, with the stride
preserved at every step of the iteration. -/
theorem shape_subShape_iterated (s : Shape) (D : Nat) (hD : s.rank = D) (h1 : 1 ≤ D) :
    (Shape.iterSubShape (D - 1) s).shape_ = [s.shape_.headI] ∧
    ∀ k : Nat, (Shape.iterSubShape k s).stride_ = s.stride_ := by
  constructor
  · obtain ⟨m, rfl⟩ : ∃ m, D = m + 1 := ⟨D - 1, by omega⟩
    have : s.shape_.length = m + 1 := hD
    simpa using iterSubShape_shape m s this
  · intro k
    exact iterSubShape_stride k s

/-- Witness for C9 at the concrete rank-3 shape `{shape_ = [3, 4, 5], stride_ = 6}`. -/
theorem shape_subShape_iterated_witness :
    (Shape.rank { shape_ := [3, 4, 5], stride_ := 6 } = 3 ∧ 1 ≤ 3) ∧
    ((Shape.iterSubShape (3 - 1) { shape_ := [3, 4, 5], stride_ := 6 }).shape_
        = [List.headI [3, 4, 5]] ∧
     ∀ k : Nat, (Shape.iterSubShape k { shape_ := [3, 4, 5], stride_ := 6 }).stride_ = 6) :=
  ⟨by decide,
   shape_subShape_iterated { shape_ := [3, 4, 5], stride_ := 6 } 3 (by decide) (by decide)⟩

/-- C2: slicing `[b, e)` on the outermost dimension (with `b ≤ e ≤` outer
extent) yields outer extent `e − b`, and the slice indexed at `i` refers to
exactly the same memory as the unsliced tensor indexed at `b + i`: for rank
> 1 the two sub-views coincide (same data offset and same shape), for rank
1 the two scalar references have the same address. -/
theorem tensor_slice_alias (t : Tensor) (b e : Nat)
    (hbe : b ≤ e) (he : e ≤ t.shape.outerExtent) :
    (2 ≤ t.shape.rank →
      (t.Slice b e).shape.outerExtent = e - b ∧
      ∀ i, i < e - b → (t.Slice b e).sub i = t.sub (b + i)) ∧
    (t.shape.rank = 1 →
      (t.Slice1 b e).shape.outerExtent = e - b ∧
      ∀ i, i < e - b → (t.Slice1 b e).ref i = t.ref (b + i)) := by
  constructor
  · intro h2
    have hne : t.shape.shape_ ≠ [] := rank_pos_ne_nil t (le_trans (by omega) h2)
    refine ⟨slice_outerExtent t b e hne, ?_⟩
    intro i _
    show Tensor.mk ((t.Slice b e).dptr + (t.Slice b e).shape.SubShape.MSize * i)
          (t.Slice b e).shape.SubShape
        = Tensor.mk (t.dptr + t.shape.SubShape.MSize * (b + i)) t.shape.SubShape
    rw [slice_subShape t b e hne, slice_dptr t b e hne]
    have harith : t.dptr + t.shape.SubShape.MSize * b + t.shape.SubShape.MSize * i
        = t.dptr + t.shape.SubShape.MSize * (b + i) := by
      rw [Nat.mul_add]
      omega
    rw [harith]
  · intro _
    refine ⟨rfl, ?_⟩
    intro i _
    show t.dptr + b + i = t.dptr + (b + i)
    omega

/-- Witness for C2 at the concrete rank-2 tensor
`{dptr = 0, shape = {shape_ = [3, 4], stride_ = 5}}`, slicing `[1, 3)`. -/
theorem tensor_slice_alias_witness :
    (1 ≤ 3 ∧
     3 ≤ (Tensor.mk 0 { shape_ := [3, 4], stride_ := 5 }).shape.outerExtent) ∧
    ((2 ≤ (Tensor.mk 0 { shape_ := [3, 4], stride_ := 5 }).shape.rank →
      ((Tensor.mk 0 { shape_ := [3, 4], stride_ := 5 }).Slice 1 3).shape.outerExtent = 3 - 1 ∧
      ∀ i, i < 3 - 1 →
        ((Tensor.mk 0 { shape_ := [3, 4], stride_ := 5 }).Slice 1 3).sub i
          = (Tensor.mk 0 { shape_ := [3, 4], stride_ := 5 }).sub (1 + i)) ∧
     ((Tensor.mk 0 { shape_ := [3, 4], stride_ := 5 }).shape.rank = 1 →
      ((Tensor.mk 0 { shape_ := [3, 4], stride_ := 5 }).Slice1 1 3).shape.outerExtent = 3 - 1 ∧
      ∀ i, i < 3 - 1 →
        ((Tensor.mk 0 { shape_ := [3, 4], stride_ := 5 }).Slice1 1 3).ref i
          = (Tensor.mk 0 { shape_ := [3, 4], stride_ := 5 }).ref (1 + i))) :=
  ⟨⟨by decide, by decide⟩,
   tensor_slice_alias (Tensor.mk 0 { shape_ := [3, 4], stride_ := 5 }) 1 3
     (by decide) (by decide)⟩

/-- C3 counterexample: the claim includes rank D = 1, but at rank 1 the
specialized `Tensor<Device,1>::Slice` offsets the data pointer by `begin`,
not by `SubShape().MSize() × begin` (which would be `stride_ × begin`), and
it replaces the stride by `end − begin` instead of preserving it: at
`{dptr = 0, shape_ = [4], stride_ = 5}` sliced on `[1, 3)` the pointer
offset is 1 (not 5) and the stride of the result is 2 (not 5). -/
theorem tensor_slice_offset_counterexample :
    ¬ ((Tensor.Slice1 (Tensor.mk 0 { shape_ := [4], stride_ := 5 }) 1 3).dptr
          = 0 + (Shape.SubShape { shape_ := [4], stride_ := 5 }).MSize * 1 ∧
       (Tensor.Slice1 (Tensor.mk 0 { shape_ := [4], stride_ := 5 }) 1 3).shape.stride_
          = 5) := by
  decide

/-- C3 (amended): for every tensor of rank D ≥ 2 and indices
`begin ≤ end`, `Slice(begin, end)` returns a view whose data pointer is
offset by `SubShape().MSize() × begin` scalars, whose outermost extent is
replaced by `end − begin`, and whose other extents and stride are those of
the original.  (At rank 1 the specialized overload applies instead; its
different behavior is the subject of C10.) -/
theorem tensor_slice_offset_amended (t : Tensor) (b e : Nat) (hbe : b ≤ e)
    (h2 : 2 ≤ t.shape.rank) :
    (t.Slice b e).dptr = t.dptr + t.shape.SubShape.MSize * b ∧
    (t.Slice b e).shape.outerExtent = e - b ∧
    (t.Slice b e).shape.shape_.dropLast = t.shape.shape_.dropLast ∧
    (t.Slice b e).shape.stride_ = t.shape.stride_ := by
  have hne : t.shape.shape_ ≠ [] := rank_pos_ne_nil t (le_trans (by omega) h2)
  exact ⟨slice_dptr t b e hne, slice_outerExtent t b e hne,
    slice_dropLast t b e hne, rfl⟩

/-- Witness for the amended C3 at the concrete rank-2 tensor
`{dptr = 10, shape = {shape_ = [3, 4], stride_ = 5}}`, slicing `[1, 3)`. -/
theorem tensor_slice_offset_amended_witness :
    (1 ≤ 3 ∧ 2 ≤ (Tensor.mk 10 { shape_ := [3, 4], stride_ := 5 }).shape.rank) ∧
    (((Tensor.mk 10 { shape_ := [3, 4], stride_ := 5 }).Slice 1 3).dptr
        = 10 + (Shape.SubShape { shape_ := [3, 4], stride_ := 5 }).MSize * 1 ∧
     ((Tensor.mk 10 { shape_ := [3, 4], stride_ := 5 }).Slice 1 3).shape.outerExtent = 3 - 1 ∧
     ((Tensor.mk 10 { shape_ := [3, 4], stride_ := 5 }).Slice 1 3).shape.shape_.dropLast
        = List.dropLast [3, 4] ∧
     ((Tensor.mk 10 { shape_ := [3, 4], stride_ := 5 }).Slice 1 3).shape.stride_ = 5) :=
  ⟨⟨by decide, by decide⟩,
   tensor_slice_offset_amended (Tensor.mk 10 { shape_ := [3, 4], stride_ := 5 }) 1 3
     (by decide) (by decide)⟩

/-- C4: for rank D > 1, `operator[](idx)` returns a sub-view whose shape is
`SubShape()` — extents 0..D−2 and the stride preserved — and whose data
pointer is the original plus `SubShape().MSize() × idx`; for rank 1,
`operator[](idx)` is a scalar reference to the buffer element at offset
`idx`. -/
theorem tensor_index_spec (t : Tensor) (idx : Nat) :
    (2 ≤ t.shape.rank →
      (t.sub idx).shape = t.shape.SubShape ∧
      (t.sub idx).shape.shape_ = t.shape.shape_.dropLast ∧
      (t.sub idx).shape.stride_ = t.shape.stride_ ∧
      (t.sub idx).dptr = t.dptr + t.shape.SubShape.MSize * idx) ∧
    (t.shape.rank = 1 → t.ref idx = t.dptr + idx) :=
  ⟨fun _ => ⟨rfl, rfl, rfl, rfl⟩, fun _ => rfl⟩

/-- Witness for C4 at the concrete rank-2 tensor
`{dptr = 7, shape = {shape_ = [3, 4], stride_ = 5}}` and index 2. -/
theorem tensor_index_spec_witness :
    (2 ≤ (Tensor.mk 7 { shape_ := [3, 4], stride_ := 5 }).shape.rank →
      ((Tensor.mk 7 { shape_ := [3, 4], stride_ := 5 }).sub 2).shape
          = (Shape.SubShape { shape_ := [3, 4], stride_ := 5 }) ∧
      ((Tensor.mk 7 { shape_ := [3, 4], stride_ := 5 }).sub 2).shape.shape_
          = List.dropLast [3, 4] ∧
      ((Tensor.mk 7 { shape_ := [3, 4], stride_ := 5 }).sub 2).shape.stride_ = 5 ∧
      ((Tensor.mk 7 { shape_ := [3, 4], stride_ := 5 }).sub 2).dptr
          = 7 + (Shape.SubShape { shape_ := [3, 4], stride_ := 5 }).MSize * 2) ∧
    ((Tensor.mk 7 { shape_ := [3, 4], stride_ := 5 }).shape.rank = 1 →
      (Tensor.mk 7 { shape_ := [3, 4], stride_ := 5 }).ref 2 = 7 + 2) :=
  tensor_index_spec (Tensor.mk 7 { shape_ := [3, 4], stride_ := 5 }) 2

/-- C10: rank-1 `Slice(begin, end)` offsets the data pointer by exactly
`begin` scalars (independently of the original stride) and sets both the
extent and the stride of the resulting shape to `end − begin`, so the
slice's allocated size equals its logical size: rank-1 slicing does not
preserve the original stride. -/
theorem tensor1_slice_spec (t : Tensor) (b e : Nat) (hbe : b ≤ e)
    (h1 : t.shape.rank = 1) :
    (t.Slice1 b e).dptr = t.dptr + b ∧
    (t.Slice1 b e).shape = { shape_ := [e - b], stride_ := e - b } ∧
    (t.Slice1 b e).shape.MSize = (t.Slice1 b e).shape.Size ∧
    ∀ st : Nat,
      Tensor.Slice1 (Tensor.mk t.dptr { shape_ := t.shape.shape_, stride_ := st }) b e
        = t.Slice1 b e :=
  ⟨rfl, rfl, rfl, fun _ => rfl⟩

/-- Witness for C10 at the concrete rank-1 tensor
`{dptr = 2, shape = {shape_ = [5], stride_ = 7}}`, slicing `[1, 4)`. -/
theorem tensor1_slice_spec_witness :
    (1 ≤ 4 ∧ (Tensor.mk 2 { shape_ := [5], stride_ := 7 }).shape.rank = 1) ∧
    (((Tensor.mk 2 { shape_ := [5], stride_ := 7 }).Slice1 1 4).dptr = 2 + 1 ∧
     ((Tensor.mk 2 { shape_ := [5], stride_ := 7 }).Slice1 1 4).shape
        = { shape_ := [4 - 1], stride_ := 4 - 1 } ∧
     ((Tensor.mk 2 { shape_ := [5], stride_ := 7 }).Slice1 1 4).shape.MSize
        = ((Tensor.mk 2 { shape_ := [5], stride_ := 7 }).Slice1 1 4).shape.Size ∧
     ∀ st : Nat,
       Tensor.Slice1 (Tensor.mk 2 { shape_ := [5], stride_ := st }) 1 4
         = (Tensor.mk 2 { shape_ := [5], stride_ := 7 }).Slice1 1 4) :=
  ⟨⟨by decide, by decide⟩,
   tensor1_slice_spec (Tensor.mk 2 { shape_ := [5], stride_ := 7 }) 1 4
     (by decide) (by decide)⟩

-- lemmas about the evaluation driver

theorem store_at (m : Mem) (a : Nat) (v : RealT) : store m a v a = v := by
  simp [store]

theorem store_other (m : Mem) (a b : Nat) (v : RealT) (h : b ≠ a) : store m a v b = m b := by
  simp [store, h]

theorem eval_eq_of_agree (m m2 : Mem) (y x : Nat) :
    ∀ p : Plan, (∀ a, a ∈ planReads p y x → m a = m2 a) →
      Plan.Eval m p y x = Plan.Eval m2 p y x := by
  intro p
  induction p with
  | tensorP d st =>
      intro hag
      exact hag _ (by simp [planReads])
  | scalarP v => intro _; rfl
  | binaryP f l r ihl ihr =>
      intro hag
      show f (Plan.Eval m l y x) (Plan.Eval m r y x)
          = f (Plan.Eval m2 l y x) (Plan.Eval m2 r y x)
      rw [ihl (fun a ha => hag a (List.mem_append.mpr (Or.inl ha))),
          ihr (fun a ha => hag a (List.mem_append.mpr (Or.inr ha)))]

theorem mapPlanRow_frame (dst : Tensor) (p : Plan) (y : Nat) (a : Nat) :
    ∀ (X : Nat) (m : Mem),
      (∀ x, x < X → a ≠ dst.dptr + y * dst.shape.stride_ + x) →
      MapPlanRow dst p y X m a = m a := by
  intro X
  induction X with
  | zero => intro m _; rfl
  | succ X ih =>
      intro m hfr
      show store (MapPlanRow dst p y X m) (dst.dptr + y * dst.shape.stride_ + X)
          (Plan.Eval (MapPlanRow dst p y X m) p y X) a = m a
      rw [store_other _ _ _ _ (hfr X (Nat.lt_succ_self X))]
      exact ih m (fun x hx => hfr x (Nat.lt_succ_of_lt hx))

theorem mapPlanAll_frame (dst : Tensor) (p : Plan) (w : Nat) (a : Nat) :
    ∀ (Y : Nat) (m : Mem),
      (∀ y, y < Y → ∀ x, x < w → a ≠ dst.dptr + y * dst.shape.stride_ + x) →
      MapPlanAll dst p w Y m a = m a := by
  intro Y
  induction Y with
  | zero => intro m _; rfl
  | succ Y ih =>
      intro m hfr
      show MapPlanRow dst p Y w (MapPlanAll dst p w Y m) a = m a
      rw [mapPlanRow_frame dst p Y a w (MapPlanAll dst p w Y m)
            (fun x hx => hfr Y (Nat.lt_succ_self Y) x hx)]
      exact ih m (fun y hy x hx => hfr y (Nat.lt_succ_of_lt hy) x hx)

theorem mapPlanRow_value (dst : Tensor) (p : Plan) (y : Nat) (m m0 : Mem) :
    ∀ X : Nat,
      (∀ x, x < X → ∀ a, a ∈ planReads p y x → m a = m0 a) →
      (∀ x, x < X → ∀ x2, x2 < X →
        (dst.dptr + y * dst.shape.stride_ + x) ∉ planReads p y x2) →
      ∀ x0, x0 < X →
        MapPlanRow dst p y X m (dst.dptr + y * dst.shape.stride_ + x0)
          = Plan.Eval m0 p y x0 := by
  intro X
  induction X with
  | zero => intro _ _ x0 hx0; exact absurd hx0 (Nat.not_lt_zero x0)
  | succ X ih =>
      intro hag hwr x0 hx0
      show store (MapPlanRow dst p y X m) (dst.dptr + y * dst.shape.stride_ + X)
          (Plan.Eval (MapPlanRow dst p y X m) p y X)
          (dst.dptr + y * dst.shape.stride_ + x0) = Plan.Eval m0 p y x0
      rcases Nat.lt_succ_iff_lt_or_eq.mp hx0 with hlt | heq
      · have hne : dst.dptr + y * dst.shape.stride_ + x0
            ≠ dst.dptr + y * dst.shape.stride_ + X :=
          fun hc => absurd (Nat.add_left_cancel hc) (Nat.ne_of_lt hlt)
        rw [store_other _ _ _ _ hne]
        exact ih (fun x hx => hag x (Nat.lt_succ_of_lt hx))
          (fun x hx x2 hx2 => hwr x (Nat.lt_succ_of_lt hx) x2 (Nat.lt_succ_of_lt hx2))
          x0 hlt
      · subst heq
        rw [store_at]
        apply eval_eq_of_agree
        intro a ha
        have h1 : MapPlanRow dst p y x0 m a = m a := by
          apply mapPlanRow_frame
          intro x hx hc
          subst hc
          exact hwr x (Nat.lt_succ_of_lt hx) x0 (Nat.lt_succ_self x0) ha
        rw [h1]
        exact hag x0 (Nat.lt_succ_self x0) a ha

theorem addr_lt_of_row_lt (d s w y x y2 x2 : Nat) (hws : w ≤ s) (hx : x < w)
    (hy : y < y2) : d + y * s + x < d + y2 * s + x2 := by
  have h1 : y * s + x < y2 * s + x2 := by
    have h2 : y * s + x < y * s + s := Nat.add_lt_add_left (Nat.lt_of_lt_of_le hx hws) _
    have h3 : y * s + s ≤ y2 * s := by
      rw [← Nat.succ_mul]
      exact Nat.mul_le_mul_right s (Nat.succ_le_of_lt hy)
    exact Nat.lt_of_lt_of_le (Nat.lt_of_lt_of_le h2 h3) (Nat.le_add_right _ _)
  rw [Nat.add_assoc, Nat.add_assoc]
  exact Nat.add_lt_add_left h1 d

theorem addr_ne_of_row_ne (d s w y x y2 x2 : Nat) (hws : w ≤ s) (hx : x < w)
    (hx2 : x2 < w) (hy : y ≠ y2) : d + y * s + x ≠ d + y2 * s + x2 := by
  rcases Nat.lt_or_ge y y2 with hlt | hge
  · exact Nat.ne_of_lt (addr_lt_of_row_lt d s w y x y2 x2 hws hx hlt)
  · have h2 : y2 < y := Nat.lt_of_le_of_ne hge (fun hc => hy hc.symm)
    exact (Nat.ne_of_lt (addr_lt_of_row_lt d s w y2 x2 y x hws hx2 h2)).symm

theorem mapPlanAll_value (dst : Tensor) (p : Plan) (w : Nat)
    (hws : w ≤ dst.shape.stride_) :
    ∀ (Y : Nat) (m0 : Mem),
      (∀ y, y < Y → ∀ x, x < w → ∀ y2, y2 < Y → ∀ x2, x2 < w →
        (dst.dptr + y * dst.shape.stride_ + x) ∉ planReads p y2 x2) →
      ∀ y, y < Y → ∀ x, x < w →
        MapPlanAll dst p w Y m0 (dst.dptr + y * dst.shape.stride_ + x)
          = Plan.Eval m0 p y x := by
  intro Y
  induction Y with
  | zero => intro m0 _ y hy; exact absurd hy (Nat.not_lt_zero y)
  | succ Y ih =>
      intro m0 hdisj y hy x hx
      show MapPlanRow dst p Y w (MapPlanAll dst p w Y m0)
          (dst.dptr + y * dst.shape.stride_ + x) = Plan.Eval m0 p y x
      rcases Nat.lt_succ_iff_lt_or_eq.mp hy with hlt | heq
      · have h1 : MapPlanRow dst p Y w (MapPlanAll dst p w Y m0)
            (dst.dptr + y * dst.shape.stride_ + x)
            = MapPlanAll dst p w Y m0 (dst.dptr + y * dst.shape.stride_ + x) := by
          apply mapPlanRow_frame
          intro x2 hx2
          exact addr_ne_of_row_ne dst.dptr dst.shape.stride_ w y x Y x2 hws hx hx2
            (Nat.ne_of_lt hlt)
        rw [h1]
        exact ih m0
          (fun y1 hy1 x1 hx1 y2 hy2 x2 hx2 =>
            hdisj y1 (Nat.lt_succ_of_lt hy1) x1 hx1 y2 (Nat.lt_succ_of_lt hy2) x2 hx2)
          y hlt x hx
      · subst heq
        apply mapPlanRow_value dst p y (MapPlanAll dst p w y m0) m0 w
        · intro x1 hx1 a ha
          apply mapPlanAll_frame
          intro y2 hy2 x2 hx2 hc
          subst hc
          exact hdisj y2 (Nat.lt_succ_of_lt hy2) x2 hx2 y (Nat.lt_succ_self y) x1 hx1 ha
        · intro x1 hx1 x2 hx2
          exact hdisj y (Nat.lt_succ_self y) x1 hx1 y (Nat.lt_succ_self y) x2 hx2
        · exact hx

theorem mapExp_eq_of_shape2 (t : Tensor) (w h : Nat) (hs : t.shape.shape_ = [w, h])
    (e : Exp) (m : Mem) :
    MapExp t e m
      = MapPlanAll (Tensor.mk t.dptr (Shape.mk [w, h] t.shape.stride_))
          (MakePlan e) w h m := by
  have hflat : t.shape.FlatTo2D = Shape.mk [w, h] t.shape.stride_ := by
    simp [Shape.FlatTo2D, hs]
  simp [MapExp, hflat]

/-- C1: for a destination `dst` and operands `A`, `B`, `C` of identical
logical shape (with `dst` and the temporary `tmp` disjoint from every
operand and each other, and satisfying the stride invariant), evaluating
the fused expression `dst = (A + B) * C` through Plan construction and
`MapExp` yields at every coordinate the same value as first computing
`tmp = A + B` into a separate buffer and then `dst = tmp * C`; moreover
the fused evaluation leaves every address outside `dst`'s own coordinates
unchanged — no intermediate array is written. -/
theorem fused_mapExp_equiv (m : Mem) (w h : Nat) (dst tmp A B C : Tensor)
    (hds : dst.shape.shape_ = [w, h]) (hts : tmp.shape.shape_ = [w, h])
    (hAs : A.shape.shape_ = [w, h]) (hBs : B.shape.shape_ = [w, h])
    (hCs : C.shape.shape_ = [w, h])
    (hdw : w ≤ dst.shape.stride_) (htw : w ≤ tmp.shape.stride_)
    (hdA : TDisj dst A w h) (hdB : TDisj dst B w h) (hdC : TDisj dst C w h)
    (htA : TDisj tmp A w h) (htB : TDisj tmp B w h) (htC : TDisj tmp C w h)
    (hdt : TDisj dst tmp w h) :
    (∀ y, y < h → ∀ x, x < w →
      MapExp dst (mulExp (addExp (Exp.leaf A) (Exp.leaf B)) (Exp.leaf C)) m
          (dst.dptr + y * dst.shape.stride_ + x)
        = MapExp dst (mulExp (Exp.leaf tmp) (Exp.leaf C))
            (MapExp tmp (addExp (Exp.leaf A) (Exp.leaf B)) m)
            (dst.dptr + y * dst.shape.stride_ + x)) ∧
    (∀ a : Nat,
      (∀ y, y < h → ∀ x, x < w → a ≠ dst.dptr + y * dst.shape.stride_ + x) →
      MapExp dst (mulExp (addExp (Exp.leaf A) (Exp.leaf B)) (Exp.leaf C)) m a
        = m a) := by
  have hrwd : ∀ (e : Exp) (mm : Mem), MapExp dst e mm
      = MapPlanAll (Tensor.mk dst.dptr (Shape.mk [w, h] dst.shape.stride_))
          (MakePlan e) w h mm :=
    fun e mm => mapExp_eq_of_shape2 dst w h hds e mm
  have hrwt : ∀ (e : Exp) (mm : Mem), MapExp tmp e mm
      = MapPlanAll (Tensor.mk tmp.dptr (Shape.mk [w, h] tmp.shape.stride_))
          (MakePlan e) w h mm :=
    fun e mm => mapExp_eq_of_shape2 tmp w h hts e mm
  constructor
  · intro y hy x hx
    simp only [hrwd, hrwt]
    have hdisjf : ∀ y1, y1 < h → ∀ x1, x1 < w → ∀ y2, y2 < h → ∀ x2, x2 < w →
        (dst.dptr + y1 * dst.shape.stride_ + x1)
          ∉ planReads (MakePlan (mulExp (addExp (Exp.leaf A) (Exp.leaf B)) (Exp.leaf C)))
              y2 x2 := by
      intro y1 hy1 x1 hx1 y2 hy2 x2 hx2
      simp only [mulExp, addExp, MakePlan, planReads, List.mem_append,
        List.mem_singleton, not_or]
      exact ⟨⟨hdA y1 hy1 x1 hx1 y2 hy2 x2 hx2, hdB y1 hy1 x1 hx1 y2 hy2 x2 hx2⟩,
        hdC y1 hy1 x1 hx1 y2 hy2 x2 hx2⟩
    have hvf : MapPlanAll (Tensor.mk dst.dptr (Shape.mk [w, h] dst.shape.stride_))
        (MakePlan (mulExp (addExp (Exp.leaf A) (Exp.leaf B)) (Exp.leaf C))) w h m
        (dst.dptr + y * dst.shape.stride_ + x)
        = Plan.Eval m (MakePlan (mulExp (addExp (Exp.leaf A) (Exp.leaf B)) (Exp.leaf C)))
            y x :=
      mapPlanAll_value (Tensor.mk dst.dptr (Shape.mk [w, h] dst.shape.stride_))
        (MakePlan (mulExp (addExp (Exp.leaf A) (Exp.leaf B)) (Exp.leaf C))) w hdw h m
        hdisjf y hy x hx
    have hdisj2 : ∀ y1, y1 < h → ∀ x1, x1 < w → ∀ y2, y2 < h → ∀ x2, x2 < w →
        (dst.dptr + y1 * dst.shape.stride_ + x1)
          ∉ planReads (MakePlan (mulExp (Exp.leaf tmp) (Exp.leaf C))) y2 x2 := by
      intro y1 hy1 x1 hx1 y2 hy2 x2 hx2
      simp only [mulExp, MakePlan, planReads, List.mem_append,
        List.mem_singleton, not_or]
      exact ⟨hdt y1 hy1 x1 hx1 y2 hy2 x2 hx2, hdC y1 hy1 x1 hx1 y2 hy2 x2 hx2⟩
    have hv2 : MapPlanAll (Tensor.mk dst.dptr (Shape.mk [w, h] dst.shape.stride_))
        (MakePlan (mulExp (Exp.leaf tmp) (Exp.leaf C))) w h
        (MapPlanAll (Tensor.mk tmp.dptr (Shape.mk [w, h] tmp.shape.stride_))
          (MakePlan (addExp (Exp.leaf A) (Exp.leaf B))) w h m)
        (dst.dptr + y * dst.shape.stride_ + x)
        = Plan.Eval
            (MapPlanAll (Tensor.mk tmp.dptr (Shape.mk [w, h] tmp.shape.stride_))
              (MakePlan (addExp (Exp.leaf A) (Exp.leaf B))) w h m)
            (MakePlan (mulExp (Exp.leaf tmp) (Exp.leaf C))) y x :=
      mapPlanAll_value (Tensor.mk dst.dptr (Shape.mk [w, h] dst.shape.stride_))
        (MakePlan (mulExp (Exp.leaf tmp) (Exp.leaf C))) w hdw h
        (MapPlanAll (Tensor.mk tmp.dptr (Shape.mk [w, h] tmp.shape.stride_))
          (MakePlan (addExp (Exp.leaf A) (Exp.leaf B))) w h m)
        hdisj2 y hy x hx
    have hdisj1 : ∀ y1, y1 < h → ∀ x1, x1 < w → ∀ y2, y2 < h → ∀ x2, x2 < w →
        (tmp.dptr + y1 * tmp.shape.stride_ + x1)
          ∉ planReads (MakePlan (addExp (Exp.leaf A) (Exp.leaf B))) y2 x2 := by
      intro y1 hy1 x1 hx1 y2 hy2 x2 hx2
      simp only [addExp, MakePlan, planReads, List.mem_append,
        List.mem_singleton, not_or]
      exact ⟨htA y1 hy1 x1 hx1 y2 hy2 x2 hx2, htB y1 hy1 x1 hx1 y2 hy2 x2 hx2⟩
    have hv1 : MapPlanAll (Tensor.mk tmp.dptr (Shape.mk [w, h] tmp.shape.stride_))
        (Plan.binaryP (fun u v => u + v) (Plan.tensorP A.dptr A.shape.stride_)
          (Plan.tensorP B.dptr B.shape.stride_)) w h m
        (tmp.dptr + y * tmp.shape.stride_ + x)
        = m (A.dptr + y * A.shape.stride_ + x) + m (B.dptr + y * B.shape.stride_ + x) :=
      mapPlanAll_value (Tensor.mk tmp.dptr (Shape.mk [w, h] tmp.shape.stride_))
        (MakePlan (addExp (Exp.leaf A) (Exp.leaf B))) w htw h m hdisj1 y hy x hx
    have hfr1 : MapPlanAll (Tensor.mk tmp.dptr (Shape.mk [w, h] tmp.shape.stride_))
        (Plan.binaryP (fun u v => u + v) (Plan.tensorP A.dptr A.shape.stride_)
          (Plan.tensorP B.dptr B.shape.stride_)) w h m
        (C.dptr + y * C.shape.stride_ + x)
        = m (C.dptr + y * C.shape.stride_ + x) :=
      mapPlanAll_frame (Tensor.mk tmp.dptr (Shape.mk [w, h] tmp.shape.stride_))
        (MakePlan (addExp (Exp.leaf A) (Exp.leaf B))) w
        (C.dptr + y * C.shape.stride_ + x) h m
        (fun y2 hy2 x2 hx2 => (htC y2 hy2 x2 hx2 y hy x hx).symm)
    rw [hvf, hv2]
    simp only [mulExp, addExp, MakePlan, Plan.Eval]
    rw [hv1, hfr1]
  · intro a ha
    simp only [hrwd]
    exact mapPlanAll_frame (Tensor.mk dst.dptr (Shape.mk [w, h] dst.shape.stride_))
      (MakePlan (mulExp (addExp (Exp.leaf A) (Exp.leaf B)) (Exp.leaf C))) w a h m ha

/-- Witness for C1 at concrete disjoint 1×1 views `dstW`, `tmpW`, `aW`,
`bW`, `cW` over the concrete memory `mWit`. -/
theorem fused_mapExp_equiv_witness :
    (dstW.shape.shape_ = [1, 1] ∧ tmpW.shape.shape_ = [1, 1] ∧
     aW.shape.shape_ = [1, 1] ∧ bW.shape.shape_ = [1, 1] ∧ cW.shape.shape_ = [1, 1] ∧
     1 ≤ dstW.shape.stride_ ∧ 1 ≤ tmpW.shape.stride_ ∧
     TDisj dstW aW 1 1 ∧ TDisj dstW bW 1 1 ∧ TDisj dstW cW 1 1 ∧
     TDisj tmpW aW 1 1 ∧ TDisj tmpW bW 1 1 ∧ TDisj tmpW cW 1 1 ∧
     TDisj dstW tmpW 1 1) ∧
    ((∀ y, y < 1 → ∀ x, x < 1 →
      MapExp dstW (mulExp (addExp (Exp.leaf aW) (Exp.leaf bW)) (Exp.leaf cW)) mWit
          (dstW.dptr + y * dstW.shape.stride_ + x)
        = MapExp dstW (mulExp (Exp.leaf tmpW) (Exp.leaf cW))
            (MapExp tmpW (addExp (Exp.leaf aW) (Exp.leaf bW)) mWit)
            (dstW.dptr + y * dstW.shape.stride_ + x)) ∧
     (∀ a : Nat,
      (∀ y, y < 1 → ∀ x, x < 1 → a ≠ dstW.dptr + y * dstW.shape.stride_ + x) →
      MapExp dstW (mulExp (addExp (Exp.leaf aW) (Exp.leaf bW)) (Exp.leaf cW)) mWit a
        = mWit a)) :=
  ⟨⟨rfl, rfl, rfl, rfl, rfl, by decide, by decide, by decide, by decide, by decide,
    by decide, by decide, by decide, by decide⟩,
   fused_mapExp_equiv mWit 1 1 dstW tmpW aW bW cW rfl rfl rfl rfl rfl
     (by decide) (by decide) (by decide) (by decide) (by decide) (by decide)
     (by decide) (by decide) (by decide)⟩
